import Mathlib

/-!
Verification of the Facsimile lexer (src/lang/lexer.rs).

The development shallowly embeds the Rust lexer: the character source
(a Peekable iterator) becomes a List Char, the mutable Lexer struct becomes
an explicit LexerState record that every operation threads, and each Rust
loop becomes a recursive Lean function.  Machine integers are modelled as
Nat with explicit bounds where overflow matters (the from_str_radix width
checks).  The fallible parts return Option or a result sum.

Modelling notes, fixed once here:
 * The f32 value of a Number token is modelled as the exact rational value
   denoted by the decimal literal; the final rounding to binary32 is not
   modelled (no claim depends on the rounded value, only on parse
   success or failure and on exactly representable values such as 42).
 * Functions whose Rust loop can consume several characters per iteration
   (the string scanner, and Iterator::next which re-enters itself after a
   comment) take an explicit fuel argument.  Every iteration consumes at
   least one character, so fuel exceeding the remaining input length never
   runs out; callers pass src.length + 1.  The fuel-exhaustion branch
   returns the sentinel fuelOut error; universal theorems below are proved
   for every fuel value, and concrete evaluations never reach the sentinel.
-/

namespace Facsimile

/-- Rust LocationPoint: index, line, column, all zero-based (lexer.rs uses
LocationPoint::default() for the initial cursor). -/
structure LocationPoint where
  index : Nat
  line : Nat
  column : Nat
deriving DecidableEq

/-- Rust LocationArea with fields start and end; end is a Lean keyword so the
field is named stop here. -/
structure LocationArea where
  start : LocationPoint
  stop : LocationPoint
deriving DecidableEq

/-- Rust ErrorKind: the lexer only ever produces SyntaxError. -/
inductive ErrorKind where
  | SyntaxError
deriving DecidableEq

/-- Rust Error record: kind, optional location, message. -/
structure Error where
  kind : ErrorKind
  location : Option LocationArea
  message : String
deriving DecidableEq

/-- The external SymbolValue: identifier text validated by a collaborator
outside this repository (super::Symbol). -/
structure Symbol where
  text : String
deriving DecidableEq

/-- Rust TokenKind, a closed tagged union (lexer.rs lines 303-319). -/
inductive TokenKind where
  | LeftParen
  | RightParen
  | LeftBracket
  | RightBracket
  | LeftBrace
  | RightBrace
  | Dot
  | Symbol (sym : Symbol)
  | Number (value : Rat)
  | String (text : String)
  | Boolean (value : Bool)
  | Nil
deriving DecidableEq

/-- Rust Token: a kind plus the inclusive span of the characters consumed. -/
structure Token where
  kind : TokenKind
  location : LocationArea
deriving DecidableEq

/-- Lexer state: the remaining characters, the running location of the next
unconsumed character, and the location of the character most recently
consumed (fields src, location, current of struct Lexer). -/
structure LexerState where
  src : List Char
  location : LocationPoint
  current : LocationPoint
deriving DecidableEq

/-- Location update of Lexer::eat (lexer.rs lines 22-29): index always
increments; a newline increments line and resets column, any other
character increments column. -/
def stepPoint (p : LocationPoint) (c : Char) : LocationPoint :=
  if c = '\n' then ⟨p.index + 1, p.line + 1, 0⟩
  else ⟨p.index + 1, p.line, p.column + 1⟩

/-- Lexer::eat (lexer.rs lines 18-32): consume one character, remembering the
pre-consumption location in current and advancing the running location. -/
def eat (s : LexerState) : Option (Char × LexerState) :=
  match s.src with
  | [] => none
  | c :: rest => some (c, ⟨rest, stepPoint s.location c, s.location⟩)

/-- An error at a single point: Rust LocationPoint::into() producing an area
whose start and end coincide. -/
def errPoint (p : LocationPoint) (msg : String) : Error :=
  ⟨ErrorKind.SyntaxError, some ⟨p, p⟩, msg⟩

/-- An error spanning an area from a to b inclusive. -/
def errArea (a b : LocationPoint) (msg : String) : Error :=
  ⟨ErrorKind.SyntaxError, some ⟨a, b⟩, msg⟩

/-- Sentinel returned only on fuel exhaustion; unreachable for the fuel
values used by the wrappers (every loop iteration consumes at least one
character).  The universal theorems below hold for every fuel value. -/
def fuelOut : Error :=
  ⟨ErrorKind.SyntaxError, none, "out of fuel"⟩

/-- Rust char::is_ascii_whitespace: space, horizontal tab, line feed,
form feed, carriage return. -/
def rustIsAsciiWhitespace (c : Char) : Bool :=
  match c with
  | ' ' | '\t' | '\n' | '\x0c' | '\r' => true
  | _ => false

/-- First character of a symbol (lexer.rs line 69): ASCII letter or
underscore. -/
def isSymbolStart (c : Char) : Bool :=
  c.isUpper || c.isLower || c == '_'

/-- Continuation character of a symbol (lexer.rs line 71): ASCII letter,
digit, or underscore. -/
def isSymbolCont (c : Char) : Bool :=
  c.isDigit || c.isUpper || c.isLower || c == '_'

/-- First character of a number (lexer.rs line 84): sign or digit. -/
def isNumberStart (c : Char) : Bool :=
  c == '-' || c == '+' || c.isDigit

/-- Continuation character of a number (lexer.rs line 86): digit,
underscore, dot, or exponent letter. -/
def isNumberCont (c : Char) : Bool :=
  c.isDigit || c == '_' || c == '.' || c == 'E' || c == 'e'

/-- The whitespace-skipping loop at the top of Iterator::next (lexer.rs
lines 49-55): peek and consume while ASCII whitespace. -/
def skipWs : List Char → LocationPoint → LocationPoint → LexerState
  | c :: rest, loc, cur =>
    if rustIsAsciiWhitespace c then skipWs rest (stepPoint loc c) loc
    else ⟨c :: rest, loc, cur⟩
  | [], loc, cur => ⟨[], loc, cur⟩

/-- The symbol-run loop (lexer.rs lines 70-73): greedily consume identifier
continuation characters, pushing each onto the accumulator. -/
def scanSymbolAux : List Char → LocationPoint → LocationPoint → String → String × LexerState
  | c :: rest, loc, cur, acc =>
    if isSymbolCont c then scanSymbolAux rest (stepPoint loc c) loc (acc.push c)
    else (acc, ⟨c :: rest, loc, cur⟩)
  | [], loc, cur, acc => (acc, ⟨[], loc, cur⟩)

/-- The number-run loop (lexer.rs lines 85-88): greedily consume numeric
continuation characters. -/
def scanNumberAux : List Char → LocationPoint → LocationPoint → String → String × LexerState
  | c :: rest, loc, cur, acc =>
    if isNumberCont c then scanNumberAux rest (stepPoint loc c) loc (acc.push c)
    else (acc, ⟨c :: rest, loc, cur⟩)
  | [], loc, cur, acc => (acc, ⟨[], loc, cur⟩)

/-- Lexer::eat_n (lexer.rs lines 34-42): consume exactly n characters into a
string; on running out of input the state keeps the partial consumption (the
Rust method mutates self before failing) and the string result is none. -/
def eatNAux : Nat → LexerState → String → Option String × LexerState
  | 0, s, acc => (some acc, s)
  | n + 1, s, acc =>
    match s.src with
    | [] => (none, s)
    | c :: rest => eatNAux n ⟨rest, stepPoint s.location c, s.location⟩ (acc.push c)

/-- Wrapper for eat_n starting from the empty accumulator. -/
def eatN (s : LexerState) (n : Nat) : Option String × LexerState :=
  eatNAux n s ""

/-- One character of Rust Debug string formatting, as used by the
format specifier in the lexer's error messages.  The characters the
messages can carry through claims are covered exactly; Rust additionally
escapes other non-printable characters with a numeric form, which no claim
exercises. -/
def rustDebugStrChar (c : Char) : String :=
  if c = '\\' then "\\\\"
  else if c = '"' then "\\\""
  else if c = '\n' then "\\n"
  else if c = '\r' then "\\r"
  else if c = '\t' then "\\t"
  else if c = '\x00' then "\\0"
  else String.singleton c

/-- Rust Debug formatting of a string: quoted and escaped. -/
def rustDebugStr (s : String) : String :=
  "\"" ++ String.join (s.data.map rustDebugStrChar) ++ "\""

/-- Rust Debug formatting of a char: quoted in apostrophes; inside a char
literal the apostrophe is escaped and the double quote is not. -/
def rustDebugChar (c : Char) : String :=
  let body :=
    if c = '\\' then "\\\\"
    else if c = '\'' then "\\'"
    else if c = '\n' then "\\n"
    else if c = '\r' then "\\r"
    else if c = '\t' then "\\t"
    else if c = '\x00' then "\\0"
    else String.singleton c
  "'" ++ body ++ "'"

/-- Rust char::to_digit(16): value of one hexadecimal digit, written over
the code point (48-57 are the decimal digits, 97-102 and 65-70 the lower
and upper hex letters). -/
def hexDigitVal (c : Char) : Option Nat :=
  let n := c.toNat
  if 48 ≤ n ∧ n ≤ 57 then some (n - 48)
  else if 97 ≤ n ∧ n ≤ 102 then some (n - 87)
  else if 65 ≤ n ∧ n ≤ 70 then some (n - 55)
  else none

/-- Digit-accumulation loop of Rust unsigned from_str_radix at radix 16:
fails on a non-digit or when the accumulated value would exceed the integer
type's maximum (the checked_mul and checked_add calls). -/
def fromStrRadixGo (max : Nat) : List Char → Nat → Option Nat
  | [], acc => some acc
  | c :: rest, acc =>
    match hexDigitVal c with
    | none => none
    | some d => if acc * 16 + d ≤ max then fromStrRadixGo max rest (acc * 16 + d) else none

/-- Digit run of from_str_radix: at least one digit is required. -/
def fromStrRadixCore (max : Nat) (ds : List Char) : Option Nat :=
  if ds.isEmpty then none else fromStrRadixGo max ds 0

/-- Model of Rust uN::from_str_radix(s, 16) where max is the maximum value
of the unsigned integer type (255 for u8, 65535 for u16, 4294967295 for
u32).  As in the Rust standard library, one leading plus sign is accepted
and stripped (a plus with nothing after it is an error); a minus sign is
rejected for unsigned types by falling through to digit parsing. -/
def fromStrRadix16 (max : Nat) (s : String) : Option Nat :=
  match s.data with
  | '+' :: rest => fromStrRadixCore max rest
  | ds => fromStrRadixCore max ds

/-- Rust char::from_u32: some exactly when the value is a Unicode scalar
value (not a surrogate and at most 0x10FFFF). -/
def charFromU32 (n : Nat) : Option Char :=
  if n.isValidChar then some (Char.ofNat n) else none

/-- One fixed-width hex escape arm (lexer.rs lines 110-183): the x, u and U
arms of the Rust match are structurally identical up to the width, the
integer type's maximum, and whether the parsed value passes through
char::from_u32; they are factored into this one definition.  For x the Rust
code casts the u8 directly with octet as char (every value up to 255 is a
valid scalar value), modelled by useFromU32 = false. -/
def hexRead (n maxVal : Nat) (useFromU32 : Bool) (before : LocationPoint) (s1 : LexerState) :
    Except Error Char × LexerState :=
  match eatN s1 n with
  | (some hex, s2) =>
    match fromStrRadix16 maxVal hex with
    | some v =>
      if useFromU32 then
        match charFromU32 v with
        | some uni => (Except.ok uni, s2)
        | none => (Except.error (errArea before s2.current (toString v ++ " is not a valid character")), s2)
      else (Except.ok (Char.ofNat v), s2)
    | none => (Except.error (errArea before s2.current (rustDebugStr hex ++ " is invalid hex")), s2)
  | (none, s2) => (Except.error (errPoint s2.current "unexpected end whilst parsing escape"), s2)

/-- Escape-sequence decoding inside the string scanner (lexer.rs lines
107-207).  The input state is positioned just after the backslash, so
current holds the backslash's location (the Rust binding named before). -/
def readEscape (s : LexerState) : Except Error Char × LexerState :=
  let before := s.current
  match s.src with
  | [] => (Except.error (errPoint s.current "unexpected end whilst parsing escape"), s)
  | ech :: rest =>
    let s1 : LexerState := ⟨rest, stepPoint s.location ech, s.location⟩
    if ech = 'x' then hexRead 2 255 false before s1
    else if ech = 'u' then hexRead 4 65535 true before s1
    else if ech = 'U' then hexRead 8 4294967295 true before s1
    else if ech = 'n' then (Except.ok '\n', s1)
    else if ech = 'r' then (Except.ok '\r', s1)
    else if ech = 't' then (Except.ok '\t', s1)
    else if ech = '0' then (Except.ok '\x00', s1)
    else if ech = '\\' then (Except.ok '\\', s1)
    else (Except.error (errArea before s1.current (rustDebugChar ech ++ " is not a valid escape")), s1)

/-- The string-scanning loop (lexer.rs lines 100-221): q is the opening
quote character which must also close the string.  Each iteration consumes
at least one character, so the fuel passed by the caller
(remaining length + 1) never runs out. -/
def scanStringAux (q : Char) : Nat → LexerState → String → Except Error String × LexerState
  | 0, s, _ => (Except.error fuelOut, s)
  | fuel + 1, s, acc =>
    match s.src with
    | [] => (Except.error (errPoint s.current "unterminated string"), s)
    | c :: rest =>
      let s1 : LexerState := ⟨rest, stepPoint s.location c, s.location⟩
      if c = q then (Except.ok acc, s1)
      else if c = '\\' then
        match readEscape s1 with
        | (Except.ok ech, s2) => scanStringAux q fuel s2 (acc.push ech)
        | (Except.error e, s2) => (Except.error e, s2)
      else scanStringAux q fuel s1 (acc.push c)

/-- The line-comment loop (lexer.rs lines 227-233): discard through the next
newline; true means a newline was found (control returns to the dispatch
loop), false means end of input was reached (Iterator::next returns None). -/
def lineCommentAux : List Char → LocationPoint → LocationPoint → Bool × LexerState
  | [], loc, cur => (false, ⟨[], loc, cur⟩)
  | c :: rest, loc, _cur =>
    if c = '\n' then (true, ⟨rest, stepPoint loc c, loc⟩)
    else lineCommentAux rest (stepPoint loc c) loc

/-- The block-comment loop (lexer.rs lines 235-249): expectEnd is the
single-flag lookback recording that the previous character was a star; it
survives only through the star arm (whose continue skips the reset). -/
def blockCommentAux : List Char → LocationPoint → LocationPoint → Bool → Option Error × LexerState
  | [], loc, cur, _ => (some (errPoint cur "unterminated comment"), ⟨[], loc, cur⟩)
  | c :: rest, loc, _cur, expectEnd =>
    if c = '*' then blockCommentAux rest (stepPoint loc c) loc true
    else if c = '/' then
      if expectEnd then (none, ⟨rest, stepPoint loc c, loc⟩)
      else blockCommentAux rest (stepPoint loc c) loc false
    else blockCommentAux rest (stepPoint loc c) loc false

/-- Identifier-shaped text: nonempty, starting with an ASCII letter or
underscore, continuing with ASCII letters, digits, or underscores. -/
def validSymbolText (t : String) : Bool :=
  match t.data with
  | [] => false
  | c :: cs => isSymbolStart c && cs.all isSymbolCont

/-- Modelled from the spec: Symbol::new, the symbol-construction
collaborator, lives outside src (super::Symbol).  The spec describes it as
a fallible factory over identifier text whose construction always succeeds
on text restricted to the identifier alphabet by the lexer's own character
filter; it is modelled as succeeding exactly on identifier-shaped text. -/
def Symbol.new (t : String) : Option Symbol :=
  if validSymbolText t then some ⟨t⟩ else none

/-- Value of a list of decimal digits. -/
def digitsToNat (ds : List Char) : Nat :=
  ds.foldl (fun a c => a * 10 + (c.toNat - '0'.toNat)) 0

/-- Exponent part of the Rust float grammar, after the letter e: an
optional sign followed by at least one digit, consuming everything. -/
def parseExpPart (cs : List Char) : Option Int :=
  let signed : Bool × List Char :=
    match cs with
    | '+' :: r => (false, r)
    | '-' :: r => (true, r)
    | r => (false, r)
  if signed.2.isEmpty then none
  else if signed.2.all Char.isDigit then
    some (if signed.1 then -(digitsToNat signed.2 : Int) else (digitsToNat signed.2 : Int))
  else none

/-- Mantissa of the Rust float grammar: digits, optionally digits around a
single dot with at least one digit in total; yields the combined digit
value and the number of fractional digits. -/
def parseMantissa (cs : List Char) : Option (Nat × Nat) :=
  let intPart := cs.takeWhile Char.isDigit
  match cs.dropWhile Char.isDigit with
  | [] => if intPart.isEmpty then none else some (digitsToNat intPart, 0)
  | '.' :: frac =>
    if frac.all Char.isDigit && !(intPart.isEmpty && frac.isEmpty) then
      some (digitsToNat (intPart ++ frac), frac.length)
    else none
  | _ => none

/-- Model of Rust f32::from_str restricted to the character set the number
scanner can hand it (an optional leading sign, then digits, underscores,
dots, and exponent letters): an optional sign, then mantissa and optional
exponent per the standard library grammar.  The special forms inf, infinity
and nan contain letters the scanner never consumes, so they are omitted.
The result is the exact rational value of the literal; rounding to binary32
is not modelled. -/
def f32FromStr (s : String) : Option Rat :=
  let signed : Bool × List Char :=
    match s.data with
    | '+' :: r => (false, r)
    | '-' :: r => (true, r)
    | r => (false, r)
  let cs := signed.2
  let mantPart := cs.takeWhile (fun c => c != 'e' && c != 'E')
  let expVal : Option Int :=
    match cs.dropWhile (fun c => c != 'e' && c != 'E') with
    | [] => some 0
    | _ :: expChars => parseExpPart expChars
  match parseMantissa mantPart, expVal with
  | some mfl, some e =>
    let q : Rat :=
      if 0 ≤ e then mkRat (mfl.1 * 10 ^ e.toNat) (10 ^ mfl.2)
      else mkRat mfl.1 (10 ^ mfl.2 * 10 ^ (-e).toNat)
    some (if signed.1 then -q else q)
  | _, _ => none

/-- The outcome of one Iterator::next call: a token (Some(Ok)), an error
(Some(Err)), end of input (None), or the panic of the unwrap on
Symbol::new, proved unreachable below. -/
inductive LexOutcome where
  | tok (t : Token)
  | err (e : Error)
  | eof
  | panicked
deriving DecidableEq

/-- The member-access exemption of the delimiter validator (lexer.rs lines
272-276): a peeked dot is legal right after a Symbol token. -/
def symbolExempt (kind : TokenKind) (c : Char) : Bool :=
  match kind with
  | TokenKind.Symbol _ => c == '.'
  | _ => false

/-- The delimiter validation after a token (lexer.rs lines 265-288): for
every kind other than the three opening brackets and Dot, peek the next
character; unless the token is a Symbol and the character is a dot, a
character that is neither ASCII whitespace nor a closing bracket is
rejected at the running location.  The message spelling delimeter is the
source's. -/
def checkDelimiter (kind : TokenKind) (s : LexerState) : Option Error :=
  if kind ≠ TokenKind.LeftParen ∧ kind ≠ TokenKind.LeftBracket ∧
      kind ≠ TokenKind.LeftBrace ∧ kind ≠ TokenKind.Dot then
    match s.src.head? with
    | some c =>
      if !(symbolExempt kind c) && !(rustIsAsciiWhitespace c) then
        if c = ')' ∨ c = ']' ∨ c = '}' then none
        else some (errPoint s.location "expected delimeter")
      else none
    | none => none
  else none

/-- Shared token return (lexer.rs lines 265-293): run the delimiter
validator, then emit the token whose span runs from start to the location
of the last character consumed. -/
def finishToken (kind : TokenKind) (start : LocationPoint) (s : LexerState) : LexOutcome × LexerState :=
  match checkDelimiter kind s with
  | some e => (LexOutcome.err e, s)
  | none => (LexOutcome.tok ⟨kind, ⟨start, s.current⟩⟩, s)

/-- Iterator::next for the lexer (lexer.rs lines 48-294).  Fuel only bounds
the re-entry after a comment (the Rust return self.next()); entering a
comment consumes at least two characters, so the caller's fuel of
src.length + 1 never runs out. -/
def nextAux : Nat → LexerState → LexOutcome × LexerState
  | 0, s => (LexOutcome.err fuelOut, s)
  | fuel + 1, s =>
    let s0 := skipWs s.src s.location s.current
    match s0.src with
    | [] => (LexOutcome.eof, s0)
    | ch :: rest =>
      let s1 : LexerState := ⟨rest, stepPoint s0.location ch, s0.location⟩
      let start := s1.current
      if ch = '(' then finishToken TokenKind.LeftParen start s1
      else if ch = ')' then finishToken TokenKind.RightParen start s1
      else if ch = '[' then finishToken TokenKind.LeftBracket start s1
      else if ch = ']' then finishToken TokenKind.RightBracket start s1
      else if ch = '{' then finishToken TokenKind.LeftBrace start s1
      else if ch = '}' then finishToken TokenKind.RightBrace start s1
      else if ch = '.' then finishToken TokenKind.Dot start s1
      else if isSymbolStart ch then
        let r := scanSymbolAux s1.src s1.location s1.current (String.singleton ch)
        if r.1 = "true" then finishToken (TokenKind.Boolean true) start r.2
        else if r.1 = "false" then finishToken (TokenKind.Boolean false) start r.2
        else if r.1 = "nil" then finishToken TokenKind.Nil start r.2
        else
          match Symbol.new r.1 with
          | some sym => finishToken (TokenKind.Symbol sym) start r.2
          | none => (LexOutcome.panicked, r.2)
      else if isNumberStart ch then
        let r := scanNumberAux s1.src s1.location s1.current (String.singleton ch)
        match f32FromStr r.1 with
        | some v => finishToken (TokenKind.Number v) start r.2
        | none => (LexOutcome.err (errArea start r.2.current "invalid number literal"), r.2)
      else if ch = '"' ∨ ch = '\'' then
        match scanStringAux ch (s1.src.length + 1) s1 "" with
        | (Except.ok text, s2) => finishToken (TokenKind.String text) start s2
        | (Except.error e, s2) => (LexOutcome.err e, s2)
      else if ch = '/' then
        match s1.src with
        | c2 :: rest2 =>
          if c2 = '/' ∨ c2 = '*' then
            let s2 : LexerState := ⟨rest2, stepPoint s1.location c2, s1.location⟩
            if c2 = '/' then
              match lineCommentAux s2.src s2.location s2.current with
              | (true, s3) => nextAux fuel s3
              | (false, s3) => (LexOutcome.eof, s3)
            else
              match blockCommentAux s2.src s2.location s2.current false with
              | (none, s3) => nextAux fuel s3
              | (some e, s3) => (LexOutcome.err e, s3)
          else (LexOutcome.err (errPoint s1.current ("unexpected " ++ rustDebugChar ch)), s1)
        | [] => (LexOutcome.err (errPoint s1.current ("unexpected " ++ rustDebugChar ch)), s1)
      else (LexOutcome.err (errPoint s1.current ("unexpected " ++ rustDebugChar ch)), s1)

/-- One token request with adequate fuel. -/
def nextTok (s : LexerState) : LexOutcome × LexerState :=
  nextAux (s.src.length + 1) s

/-- Lexer::new over an input string: the cursor starts at the default
(all-zero) location. -/
def initState (input : String) : LexerState :=
  ⟨input.data, ⟨0, 0, 0⟩, ⟨0, 0, 0⟩⟩

/-- Driving loop collecting tokens until an error or end of input; every
token consumes at least one character, so fuel length + 1 suffices. -/
def lexAux : Nat → LexerState → List Token × Option Error
  | 0, _ => ([], some fuelOut)
  | fuel + 1, s =>
    match nextTok s with
    | (LexOutcome.tok t, s') =>
      let r := lexAux fuel s'
      (t :: r.1, r.2)
    | (LexOutcome.err e, _) => ([], some e)
    | (LexOutcome.eof, _) => ([], none)
    | (LexOutcome.panicked, _) =>
      ([], some ⟨ErrorKind.SyntaxError, none, "symbol construction failed"⟩)

/-- Full tokenization of an input string. -/
def lex (input : String) : List Token × Option Error :=
  lexAux (input.length + 1) (initState input)

/-- Kind of a token outcome, for stating claims about single tokens. -/
def outcomeKind : LexOutcome → Option TokenKind
  | LexOutcome.tok t => some t.kind
  | _ => none

/-- Error of an error outcome. -/
def outcomeErr : LexOutcome → Option Error
  | LexOutcome.err e => some e
  | _ => none

/-- Message of an error outcome. -/
def outcomeErrMsg : LexOutcome → Option String
  | LexOutcome.err e => some e.message
  | _ => none

/-- Spans chain upward from a lower bound: each token starts no earlier
than the bound, ends no earlier than it starts, and the next token starts
strictly after it ends. -/
def SpanChain : Nat → List Token → Prop
  | _, [] => True
  | i, t :: ts =>
    i ≤ t.location.start.index ∧ t.location.start.index ≤ t.location.stop.index ∧
      SpanChain (t.location.stop.index + 1) ts

/-- Cursor invariant relating the two location fields: after at least one
character has been consumed, current sits exactly one index before the
running location. -/
def StOk (s : LexerState) : Prop :=
  s.current.index + 1 = s.location.index

theorem stepPoint_index (p : LocationPoint) (c : Char) : (stepPoint p c).index = p.index + 1 := by
  unfold stepPoint
  split <;> rfl

theorem skipWs_spec (src : List Char) (loc cur : LocationPoint) :
    (skipWs src loc cur).location.index + (skipWs src loc cur).src.length
      = loc.index + src.length ∧
    (skipWs src loc cur).src.length ≤ src.length := by
  induction src generalizing loc cur with
  | nil => simp [skipWs]
  | cons c rest ih =>
    rw [skipWs]
    split
    · obtain ⟨h1, h2⟩ := ih (stepPoint loc c) loc
      rw [stepPoint_index] at h1
      constructor
      · simp only [List.length_cons]
        omega
      · simp only [List.length_cons]
        omega
    · simp

theorem scanSymbolAux_spec (src : List Char) (loc cur : LocationPoint) (acc : String) :
    (scanSymbolAux src loc cur acc).2.location.index + (scanSymbolAux src loc cur acc).2.src.length
      = loc.index + src.length ∧
    (scanSymbolAux src loc cur acc).2.src.length ≤ src.length ∧
    (cur.index + 1 = loc.index →
      (scanSymbolAux src loc cur acc).2.current.index + 1
        = (scanSymbolAux src loc cur acc).2.location.index) := by
  induction src generalizing loc cur acc with
  | nil => simp [scanSymbolAux]
  | cons c rest ih =>
    rw [scanSymbolAux]
    split
    · obtain ⟨h1, h2, h3⟩ := ih (stepPoint loc c) loc (acc.push c)
      rw [stepPoint_index] at h1
      refine ⟨?_, ?_, fun _ => h3 (by rw [stepPoint_index])⟩
      · simp only [List.length_cons]
        omega
      · simp only [List.length_cons]
        omega
    · simp

theorem scanNumberAux_spec (src : List Char) (loc cur : LocationPoint) (acc : String) :
    (scanNumberAux src loc cur acc).2.location.index + (scanNumberAux src loc cur acc).2.src.length
      = loc.index + src.length ∧
    (scanNumberAux src loc cur acc).2.src.length ≤ src.length ∧
    (cur.index + 1 = loc.index →
      (scanNumberAux src loc cur acc).2.current.index + 1
        = (scanNumberAux src loc cur acc).2.location.index) := by
  induction src generalizing loc cur acc with
  | nil => simp [scanNumberAux]
  | cons c rest ih =>
    rw [scanNumberAux]
    split
    · obtain ⟨h1, h2, h3⟩ := ih (stepPoint loc c) loc (acc.push c)
      rw [stepPoint_index] at h1
      refine ⟨?_, ?_, fun _ => h3 (by rw [stepPoint_index])⟩
      · simp only [List.length_cons]
        omega
      · simp only [List.length_cons]
        omega
    · simp

theorem mkAppend (a b : List Char) : String.mk a ++ String.mk b = String.mk (a ++ b) := rfl

theorem scanNumberAux_out (src : List Char) (loc cur : LocationPoint) (acc : String) :
    (scanNumberAux src loc cur acc).1 = acc ++ String.mk (src.takeWhile isNumberCont) ∧
    (scanNumberAux src loc cur acc).2.src = src.dropWhile isNumberCont := by
  induction src generalizing loc cur acc with
  | nil =>
    obtain ⟨accData⟩ := acc
    simp [scanNumberAux, String.mk]
  | cons c rest ih =>
    rw [scanNumberAux]
    split
    · obtain ⟨h1, h2⟩ := ih (stepPoint loc c) loc (acc.push c)
      rw [List.takeWhile_cons_of_pos (by assumption), List.dropWhile_cons_of_pos (by assumption)]
      refine ⟨?_, h2⟩
      rw [h1]
      obtain ⟨accData⟩ := acc
      simp only [String.push, String.mk, mkAppend]
      simp
    · rw [List.takeWhile_cons_of_neg (by assumption), List.dropWhile_cons_of_neg (by assumption)]
      obtain ⟨accData⟩ := acc
      simp [String.mk]

theorem scanSymbolAux_valid (src : List Char) (loc cur : LocationPoint) (acc : String)
    (h : validSymbolText acc = true) :
    validSymbolText (scanSymbolAux src loc cur acc).1 = true := by
  induction src generalizing loc cur acc with
  | nil => simpa [scanSymbolAux] using h
  | cons c rest ih =>
    rw [scanSymbolAux]
    split
    · refine ih (stepPoint loc c) loc (acc.push c) ?_
      obtain ⟨accData⟩ := acc
      cases accData with
      | nil => simp [validSymbolText] at h
      | cons a as =>
        simp only [validSymbolText, String.push] at h ⊢
        simp only [List.all_append, List.all_cons, List.all_nil] at *
        simp_all
    · exact h

theorem eatNAux_spec (n : Nat) (s : LexerState) (acc : String) :
    (eatNAux n s acc).2.location.index + (eatNAux n s acc).2.src.length
      = s.location.index + s.src.length ∧
    (eatNAux n s acc).2.src.length ≤ s.src.length ∧
    (StOk s → StOk (eatNAux n s acc).2) := by
  induction n generalizing s acc with
  | zero => simp [eatNAux]
  | succ m ih =>
    rw [eatNAux]
    split
    · simp
    · rename_i c rest heq
      obtain ⟨h1, h2, h3⟩ := ih ⟨rest, stepPoint s.location c, s.location⟩ (acc.push c)
      simp only at h1 h2
      rw [stepPoint_index] at h1
      refine ⟨?_, ?_, fun _ => h3 ?_⟩
      · rw [heq]
        simp only [List.length_cons]
        omega
      · rw [heq]
        simp only [List.length_cons]
        omega
      · simp only [StOk]
        rw [stepPoint_index]

theorem hexRead_state (n maxVal : Nat) (b : Bool) (before : LocationPoint) (s1 : LexerState) :
    (hexRead n maxVal b before s1).2 = (eatN s1 n).2 := by
  rcases heat : eatN s1 n with ⟨o, s2⟩
  cases o with
  | none => simp [hexRead, heat]
  | some hex =>
    simp only [hexRead, heat]
    split
    · split
      · split <;> rfl
      · rfl
    · rfl

theorem readEscape_spec (s : LexerState) :
    (readEscape s).2.location.index + (readEscape s).2.src.length
      = s.location.index + s.src.length ∧
    (readEscape s).2.src.length ≤ s.src.length ∧
    (StOk s → StOk (readEscape s).2) := by
  rcases hsrc : s.src with _ | ⟨ech, rest⟩
  · simp [readEscape, hsrc]
  · have hst : StOk (⟨rest, stepPoint s.location ech, s.location⟩ : LexerState) := by
      simp only [StOk]
      rw [stepPoint_index]
    have hlen : s.src.length = rest.length + 1 := by rw [hsrc, List.length_cons]
    have hidx : (stepPoint s.location ech).index = s.location.index + 1 := stepPoint_index _ _
    simp only [readEscape, hsrc]
    split_ifs with h1 h2 h3 h4 h5 h6 h7 h8
    case pos =>
      rw [hexRead_state]
      obtain ⟨e1, e2, e3⟩ :=
        eatNAux_spec 2 (⟨rest, stepPoint s.location ech, s.location⟩ : LexerState) ""
      dsimp only at e1 e2
      rw [hidx] at e1
      simp only [eatN, List.length_cons]
      exact ⟨by omega, by omega, fun _ => e3 hst⟩
    case pos =>
      rw [hexRead_state]
      obtain ⟨e1, e2, e3⟩ :=
        eatNAux_spec 4 (⟨rest, stepPoint s.location ech, s.location⟩ : LexerState) ""
      dsimp only at e1 e2
      rw [hidx] at e1
      simp only [eatN, List.length_cons]
      exact ⟨by omega, by omega, fun _ => e3 hst⟩
    case pos =>
      rw [hexRead_state]
      obtain ⟨e1, e2, e3⟩ :=
        eatNAux_spec 8 (⟨rest, stepPoint s.location ech, s.location⟩ : LexerState) ""
      dsimp only at e1 e2
      rw [hidx] at e1
      simp only [eatN, List.length_cons]
      exact ⟨by omega, by omega, fun _ => e3 hst⟩
    all_goals
      refine ⟨?_, ?_, fun _ => hst⟩ <;>
        · dsimp only
          simp only [stepPoint_index, List.length_cons]
          omega

theorem scanStringAux_spec (q : Char) (fuel : Nat) (s : LexerState) (acc : String) :
    (scanStringAux q fuel s acc).2.location.index + (scanStringAux q fuel s acc).2.src.length
      = s.location.index + s.src.length ∧
    (scanStringAux q fuel s acc).2.src.length ≤ s.src.length ∧
    (StOk s → StOk (scanStringAux q fuel s acc).2) := by
  induction fuel generalizing s acc with
  | zero => simp [scanStringAux]
  | succ m ih =>
    rw [scanStringAux]
    split
    · simp
    · rename_i c rest heq
      have hst : StOk (⟨rest, stepPoint s.location c, s.location⟩ : LexerState) := by
        simp only [StOk]
        rw [stepPoint_index]

      split_ifs with hq hbs
      · refine ⟨?_, ?_, fun _ => hst⟩ <;>
          · dsimp only
            rw [heq]
            simp only [stepPoint_index, List.length_cons]
            omega
      · obtain ⟨r1, r2, r3⟩ :=
          readEscape_spec (⟨rest, stepPoint s.location c, s.location⟩ : LexerState)
        dsimp only at r1 r2
        rw [stepPoint_index] at r1
        dsimp only
        split
        · rename_i ech s2 hre
          rw [hre] at r1 r2 r3
          dsimp only at r1 r2 r3
          obtain ⟨i1, i2, i3⟩ := ih s2 (acc.push ech)
          refine ⟨?_, ?_, fun _ => i3 (r3 hst)⟩
          · rw [heq]
            simp only [List.length_cons]
            omega
          · rw [heq]
            simp only [List.length_cons]
            omega
        · rename_i e s2 hre
          rw [hre] at r1 r2 r3
          dsimp only at r1 r2 r3
          refine ⟨?_, ?_, fun _ => r3 hst⟩
          · rw [heq]
            simp only [List.length_cons]
            omega
          · rw [heq]
            simp only [List.length_cons]
            omega
      · obtain ⟨i1, i2, i3⟩ :=
          ih (⟨rest, stepPoint s.location c, s.location⟩ : LexerState) (acc.push c)
        dsimp only at i1 i2
        rw [stepPoint_index] at i1
        refine ⟨?_, ?_, fun _ => i3 hst⟩
        · rw [heq]
          simp only [List.length_cons]
          omega
        · rw [heq]
          simp only [List.length_cons]
          omega

theorem lineCommentAux_spec (src : List Char) (loc cur : LocationPoint) :
    (lineCommentAux src loc cur).2.location.index + (lineCommentAux src loc cur).2.src.length
      = loc.index + src.length ∧
    (lineCommentAux src loc cur).2.src.length ≤ src.length := by
  induction src generalizing loc cur with
  | nil => simp [lineCommentAux]
  | cons c rest ih =>
    rw [lineCommentAux]
    split
    · refine ⟨?_, ?_⟩ <;>
        · dsimp only
          simp only [stepPoint_index, List.length_cons]
          omega
    · obtain ⟨h1, h2⟩ := ih (stepPoint loc c) loc
      rw [stepPoint_index] at h1
      refine ⟨?_, ?_⟩ <;>
        · simp only [List.length_cons]
          omega

theorem blockCommentAux_spec (src : List Char) (loc cur : LocationPoint) (b : Bool) :
    (blockCommentAux src loc cur b).2.location.index + (blockCommentAux src loc cur b).2.src.length
      = loc.index + src.length ∧
    (blockCommentAux src loc cur b).2.src.length ≤ src.length := by
  induction src generalizing loc cur b with
  | nil => simp [blockCommentAux]
  | cons c rest ih =>
    rw [blockCommentAux]
    split_ifs with h1 h2 h3
    · obtain ⟨g1, g2⟩ := ih (stepPoint loc c) loc true
      rw [stepPoint_index] at g1
      refine ⟨?_, ?_⟩ <;>
        · simp only [List.length_cons]
          omega
    · refine ⟨?_, ?_⟩ <;>
        · dsimp only
          simp only [stepPoint_index, List.length_cons]
          omega
    · obtain ⟨g1, g2⟩ := ih (stepPoint loc c) loc false
      rw [stepPoint_index] at g1
      refine ⟨?_, ?_⟩ <;>
        · simp only [List.length_cons]
          omega
    · obtain ⟨g1, g2⟩ := ih (stepPoint loc c) loc false
      rw [stepPoint_index] at g1
      refine ⟨?_, ?_⟩ <;>
        · simp only [List.length_cons]
          omega

theorem finishToken_state (kind : TokenKind) (start : LocationPoint) (s : LexerState) :
    (finishToken kind start s).2 = s := by
  unfold finishToken
  cases checkDelimiter kind s <;> rfl

theorem finishToken_tok (kind : TokenKind) (start : LocationPoint) (s : LexerState)
    (t : Token) (s' : LexerState) (h : finishToken kind start s = (LexOutcome.tok t, s')) :
    t.location.start = start ∧ t.location.stop = s.current ∧ s' = s := by
  unfold finishToken at h
  cases hcd : checkDelimiter kind s <;> rw [hcd] at h
  · obtain ⟨h1, h2⟩ := Prod.mk.injEq .. ▸ h
    cases h1
    exact ⟨rfl, rfl, h2.symm⟩
  · simp at h

theorem finishToken_facts (kind : TokenKind) (start : LocationPoint) (s2 : LexerState)
    (base : Nat) (hstart : base ≤ start.index) (hlt : start.index < s2.location.index)
    (hok : StOk s2) :
    ∀ t s', finishToken kind start s2 = (LexOutcome.tok t, s') →
      base ≤ t.location.start.index ∧
      t.location.start.index ≤ t.location.stop.index ∧
      t.location.stop.index + 1 = s'.location.index := by
  intro t s' h
  obtain ⟨f1, f2, f3⟩ := finishToken_tok _ _ _ _ _ h
  subst f3
  rw [f1, f2]
  simp only [StOk] at hok
  omega

theorem nextAux_spec (fuel : Nat) (s : LexerState) :
    (nextAux fuel s).2.location.index + (nextAux fuel s).2.src.length
      = s.location.index + s.src.length ∧
    (nextAux fuel s).2.src.length ≤ s.src.length ∧
    (∀ t s', nextAux fuel s = (LexOutcome.tok t, s') →
      s.location.index ≤ t.location.start.index ∧
      t.location.start.index ≤ t.location.stop.index ∧
      t.location.stop.index + 1 = s'.location.index) := by
  induction fuel generalizing s with
  | zero =>
    refine ⟨rfl, Nat.le_refl _, fun t s' h => ?_⟩
    simp [nextAux] at h
  | succ m ih =>
    obtain ⟨w1, w2⟩ := skipWs_spec s.src s.location s.current
    rcases hsw : skipWs s.src s.location s.current with ⟨src0, loc0, cur0⟩
    rw [hsw] at w1 w2
    dsimp only at w1 w2
    rw [nextAux, hsw]
    dsimp only
    cases src0 with
    | nil =>
      simp only [List.length_nil] at w1 w2
      exact ⟨by dsimp only [List.length_nil]; omega, by dsimp only [List.length_nil]; omega,
        fun t s' h => by simp at h⟩
    | cons ch rest =>
      simp only [List.length_cons] at w1 w2
      dsimp only
      by_cases hp1 : ch = '('
      · rw [if_pos hp1, finishToken_state]
        refine ⟨?_, ?_, finishToken_facts _ _ _ _ ?_ ?_ ?_⟩ <;>
          · dsimp only [StOk]
            try simp only [stepPoint_index, List.length_cons]
            try omega
      rw [if_neg hp1]
      by_cases hp2 : ch = ')'
      · rw [if_pos hp2, finishToken_state]
        refine ⟨?_, ?_, finishToken_facts _ _ _ _ ?_ ?_ ?_⟩ <;>
          · dsimp only [StOk]
            try simp only [stepPoint_index, List.length_cons]
            try omega
      rw [if_neg hp2]
      by_cases hp3 : ch = '['
      · rw [if_pos hp3, finishToken_state]
        refine ⟨?_, ?_, finishToken_facts _ _ _ _ ?_ ?_ ?_⟩ <;>
          · dsimp only [StOk]
            try simp only [stepPoint_index, List.length_cons]
            try omega
      rw [if_neg hp3]
      by_cases hp4 : ch = ']'
      · rw [if_pos hp4, finishToken_state]
        refine ⟨?_, ?_, finishToken_facts _ _ _ _ ?_ ?_ ?_⟩ <;>
          · dsimp only [StOk]
            try simp only [stepPoint_index, List.length_cons]
            try omega
      rw [if_neg hp4]
      by_cases hp5 : ch = '{'
      · rw [if_pos hp5, finishToken_state]
        refine ⟨?_, ?_, finishToken_facts _ _ _ _ ?_ ?_ ?_⟩ <;>
          · dsimp only [StOk]
            try simp only [stepPoint_index, List.length_cons]
            try omega
      rw [if_neg hp5]
      by_cases hp6 : ch = '}'
      · rw [if_pos hp6, finishToken_state]
        refine ⟨?_, ?_, finishToken_facts _ _ _ _ ?_ ?_ ?_⟩ <;>
          · dsimp only [StOk]
            try simp only [stepPoint_index, List.length_cons]
            try omega
      rw [if_neg hp6]
      by_cases hp7 : ch = '.'
      · rw [if_pos hp7, finishToken_state]
        refine ⟨?_, ?_, finishToken_facts _ _ _ _ ?_ ?_ ?_⟩ <;>
          · dsimp only [StOk]
            try simp only [stepPoint_index, List.length_cons]
            try omega
      rw [if_neg hp7]
      by_cases hsym : isSymbolStart ch = true
      · rw [if_pos hsym]
        rcases hsc : scanSymbolAux rest (stepPoint loc0 ch) loc0 (String.singleton ch)
          with ⟨run, s2⟩
        obtain ⟨e1, e2, e3⟩ := scanSymbolAux_spec rest (stepPoint loc0 ch) loc0 (String.singleton ch)
        rw [hsc] at e1 e2 e3
        dsimp only at e1 e2 e3
        rw [stepPoint_index] at e1
        have hok2 : StOk s2 := e3 (by rw [stepPoint_index])
        dsimp only
        by_cases hrt : run = "true"
        · rw [if_pos hrt, finishToken_state]
          exact ⟨by omega, by omega, finishToken_facts _ _ _ _ (by omega) (by omega) hok2⟩
        rw [if_neg hrt]
        by_cases hrf : run = "false"
        · rw [if_pos hrf, finishToken_state]
          exact ⟨by omega, by omega, finishToken_facts _ _ _ _ (by omega) (by omega) hok2⟩
        rw [if_neg hrf]
        by_cases hrn : run = "nil"
        · rw [if_pos hrn, finishToken_state]
          exact ⟨by omega, by omega, finishToken_facts _ _ _ _ (by omega) (by omega) hok2⟩
        rw [if_neg hrn]
        cases Symbol.new run with
        | some sym =>
          dsimp only
          rw [finishToken_state]
          exact ⟨by omega, by omega, finishToken_facts _ _ _ _ (by omega) (by omega) hok2⟩
        | none =>
          dsimp only
          exact ⟨by omega, by omega, fun t s' h => by simp at h⟩
      rw [if_neg hsym]
      by_cases hnum : isNumberStart ch = true
      · rw [if_pos hnum]
        rcases hsc : scanNumberAux rest (stepPoint loc0 ch) loc0 (String.singleton ch)
          with ⟨run, s2⟩
        obtain ⟨e1, e2, e3⟩ := scanNumberAux_spec rest (stepPoint loc0 ch) loc0 (String.singleton ch)
        rw [hsc] at e1 e2 e3
        dsimp only at e1 e2 e3
        rw [stepPoint_index] at e1
        have hok2 : StOk s2 := e3 (by rw [stepPoint_index])
        dsimp only
        cases f32FromStr run with
        | some v =>
          dsimp only
          rw [finishToken_state]
          exact ⟨by omega, by omega, finishToken_facts _ _ _ _ (by omega) (by omega) hok2⟩
        | none =>
          dsimp only
          exact ⟨by omega, by omega, fun t s' h => by simp at h⟩
      rw [if_neg hnum]
      by_cases hstr : ch = '"' ∨ ch = '\''
      · rw [if_pos hstr]
        rcases hss : scanStringAux ch (rest.length + 1)
            (⟨rest, stepPoint loc0 ch, loc0⟩ : LexerState) "" with ⟨res, s2⟩
        obtain ⟨e1, e2, e3⟩ := scanStringAux_spec ch (rest.length + 1)
          (⟨rest, stepPoint loc0 ch, loc0⟩ : LexerState) ""
        rw [hss] at e1 e2 e3
        dsimp only at e1 e2 e3
        rw [stepPoint_index] at e1
        have hok2 : StOk s2 := e3 (by simp only [StOk]; rw [stepPoint_index])
        cases res with
        | ok text =>
          dsimp only
          rw [finishToken_state]
          exact ⟨by omega, by omega, finishToken_facts _ _ _ _ (by omega) (by omega) hok2⟩
        | error e =>
          dsimp only
          exact ⟨by omega, by omega, fun t s' h => by simp at h⟩
      rw [if_neg hstr]
      by_cases hslash : ch = '/'
      · rw [if_pos hslash]
        cases rest with
        | nil =>
          simp only [List.length_nil] at w1 w2
          refine ⟨?_, ?_, fun t s' h => by simp at h⟩ <;>
            · dsimp only
              try simp only [stepPoint_index, List.length_nil, List.length_cons]
              try omega
        | cons c2 rest2 =>
          simp only [List.length_cons] at w1 w2
          dsimp only
          by_cases hcc : c2 = '/' ∨ c2 = '*'
          · rw [if_pos hcc]
            by_cases hc2 : c2 = '/'
            · rw [if_pos hc2]
              rcases hlc : lineCommentAux rest2 (stepPoint (stepPoint loc0 ch) c2)
                  (stepPoint loc0 ch) with ⟨found, s3⟩
              obtain ⟨l1, l2⟩ := lineCommentAux_spec rest2 (stepPoint (stepPoint loc0 ch) c2)
                (stepPoint loc0 ch)
              rw [hlc] at l1 l2
              dsimp only at l1 l2
              rw [stepPoint_index, stepPoint_index] at l1
              cases found with
              | true =>
                obtain ⟨n1, n2, n3⟩ := ih s3
                try dsimp only
                refine ⟨by omega, by omega, fun t s' h => ?_⟩
                obtain ⟨t1, t2, t3⟩ := n3 t s' h
                exact ⟨by omega, t2, t3⟩
              | false =>
                try dsimp only
                exact ⟨by omega, by omega, fun t s' h => by simp at h⟩
            · rw [if_neg hc2]
              rcases hbc : blockCommentAux rest2 (stepPoint (stepPoint loc0 ch) c2)
                  (stepPoint loc0 ch) false with ⟨oe, s3⟩
              obtain ⟨l1, l2⟩ := blockCommentAux_spec rest2 (stepPoint (stepPoint loc0 ch) c2)
                (stepPoint loc0 ch) false
              rw [hbc] at l1 l2
              dsimp only at l1 l2
              rw [stepPoint_index, stepPoint_index] at l1
              cases oe with
              | none =>
                obtain ⟨n1, n2, n3⟩ := ih s3
                try dsimp only
                refine ⟨by omega, by omega, fun t s' h => ?_⟩
                obtain ⟨t1, t2, t3⟩ := n3 t s' h
                exact ⟨by omega, t2, t3⟩
              | some e =>
                try dsimp only
                exact ⟨by omega, by omega, fun t s' h => by simp at h⟩
          · rw [if_neg hcc]
            refine ⟨?_, ?_, fun t s' h => by simp at h⟩ <;>
              · dsimp only
                try simp only [stepPoint_index, List.length_cons]
                try omega
      · rw [if_neg hslash]
        refine ⟨?_, ?_, fun t s' h => by simp at h⟩ <;>
          · dsimp only
            try simp only [stepPoint_index, List.length_cons]
            try omega

theorem nextAux_tok_lt (fuel : Nat) (s : LexerState) (t : Token) (s' : LexerState)
    (h : nextAux fuel s = (LexOutcome.tok t, s')) : s'.src.length < s.src.length := by
  obtain ⟨c1, c2, c3⟩ := nextAux_spec fuel s
  obtain ⟨f1, f2, f3⟩ := c3 t s' h
  rw [h] at c1 c2
  dsimp only at c1 c2
  omega

theorem lexAux_chain (fuel : Nat) (s : LexerState) (toks : List Token)
    (h : lexAux fuel s = (toks, none)) : SpanChain s.location.index toks := by
  induction fuel generalizing s toks with
  | zero =>
    rw [lexAux] at h
    simp [fuelOut] at h
  | succ m ih =>
    rw [lexAux] at h
    rcases hnt : nextTok s with ⟨o, s'⟩
    rw [hnt] at h
    cases o with
    | tok t =>
      dsimp only at h
      obtain ⟨h1, h2⟩ := Prod.mk.injEq .. ▸ h
      have hfacts := (nextAux_spec (s.src.length + 1) s).2.2 t s' hnt
      have hrest : lexAux m s' = ((lexAux m s').1, none) := by
        rw [← h2]
      have hch := ih s' (lexAux m s').1 hrest
      rw [← h1, SpanChain]
      refine ⟨hfacts.1, hfacts.2.1, ?_⟩
      rw [hfacts.2.2]
      exact hch
    | err e => simp at h
    | eof =>
      dsimp only at h
      obtain ⟨h1, h2⟩ := Prod.mk.injEq .. ▸ h
      rw [← h1]
      trivial
    | panicked => simp at h

theorem spanChain_facts (toks : List Token) : ∀ i, SpanChain i toks →
    List.Pairwise (fun a b => a.location.start.index < b.location.start.index) toks ∧
    List.Pairwise (fun a b => a.location.stop.index < b.location.start.index) toks ∧
    ∀ t ∈ toks, i ≤ t.location.start.index ∧ t.location.start.index ≤ t.location.stop.index := by
  induction toks with
  | nil =>
    intro i _
    simp
  | cons t ts ih =>
    intro i h
    obtain ⟨h1, h2, h3⟩ := h
    obtain ⟨p1, p2, mem⟩ := ih _ h3
    refine ⟨List.Pairwise.cons ?_ p1, List.Pairwise.cons ?_ p2, ?_⟩
    · intro u hu
      have := (mem u hu).1
      omega
    · intro u hu
      have := (mem u hu).1
      omega
    · intro u hu
      rcases List.mem_cons.mp hu with heq | hu'
      · rw [heq]
        exact ⟨h1, h2⟩
      · have := (mem u hu').1
        have h4 := (mem u hu').2
        exact ⟨by omega, h4⟩

theorem symbolExempt_iff (kind : TokenKind) (c : Char) :
    symbolExempt kind c = true ↔ (∃ sym, kind = TokenKind.Symbol sym) ∧ c = '.' := by
  cases kind <;> simp [symbolExempt]

theorem finishToken_ne_panicked (kind : TokenKind) (start : LocationPoint) (s : LexerState) :
    (finishToken kind start s).1 ≠ LexOutcome.panicked := by
  unfold finishToken
  cases checkDelimiter kind s <;> simp

theorem singleton_valid (ch : Char) (h : isSymbolStart ch = true) :
    validSymbolText (String.singleton ch) = true := by
  simp [validSymbolText, String.singleton, h]

theorem nextAux_ne_panicked (fuel : Nat) (s : LexerState) :
    (nextAux fuel s).1 ≠ LexOutcome.panicked := by
  induction fuel generalizing s with
  | zero => simp [nextAux]
  | succ m ih =>
    rw [nextAux]
    rcases hsw : skipWs s.src s.location s.current with ⟨src0, loc0, cur0⟩
    dsimp only
    cases src0 with
    | nil => simp
    | cons ch rest =>
      dsimp only
      by_cases hp1 : ch = '('
      · rw [if_pos hp1]
        exact finishToken_ne_panicked _ _ _
      rw [if_neg hp1]
      by_cases hp2 : ch = ')'
      · rw [if_pos hp2]
        exact finishToken_ne_panicked _ _ _
      rw [if_neg hp2]
      by_cases hp3 : ch = '['
      · rw [if_pos hp3]
        exact finishToken_ne_panicked _ _ _
      rw [if_neg hp3]
      by_cases hp4 : ch = ']'
      · rw [if_pos hp4]
        exact finishToken_ne_panicked _ _ _
      rw [if_neg hp4]
      by_cases hp5 : ch = '{'
      · rw [if_pos hp5]
        exact finishToken_ne_panicked _ _ _
      rw [if_neg hp5]
      by_cases hp6 : ch = '}'
      · rw [if_pos hp6]
        exact finishToken_ne_panicked _ _ _
      rw [if_neg hp6]
      by_cases hp7 : ch = '.'
      · rw [if_pos hp7]
        exact finishToken_ne_panicked _ _ _
      rw [if_neg hp7]
      by_cases hsym : isSymbolStart ch = true
      · rw [if_pos hsym]
        rcases hsc : scanSymbolAux rest (stepPoint loc0 ch) loc0 (String.singleton ch)
          with ⟨run, s2⟩
        have hv := scanSymbolAux_valid rest (stepPoint loc0 ch) loc0 (String.singleton ch)
          (singleton_valid ch hsym)
        rw [hsc] at hv
        dsimp only at hv
        dsimp only
        by_cases hrt : run = "true"
        · rw [if_pos hrt]
          exact finishToken_ne_panicked _ _ _
        rw [if_neg hrt]
        by_cases hrf : run = "false"
        · rw [if_pos hrf]
          exact finishToken_ne_panicked _ _ _
        rw [if_neg hrf]
        by_cases hrn : run = "nil"
        · rw [if_pos hrn]
          exact finishToken_ne_panicked _ _ _
        rw [if_neg hrn]
        simp only [Symbol.new, hv, if_true]
        exact finishToken_ne_panicked _ _ _
      rw [if_neg hsym]
      by_cases hnum : isNumberStart ch = true
      · rw [if_pos hnum]
        rcases hsc : scanNumberAux rest (stepPoint loc0 ch) loc0 (String.singleton ch)
          with ⟨run, s2⟩
        dsimp only
        cases f32FromStr run with
        | some v =>
          dsimp only
          exact finishToken_ne_panicked _ _ _
        | none => simp
      rw [if_neg hnum]
      by_cases hstr : ch = '"' ∨ ch = '\''
      · rw [if_pos hstr]
        rcases hss : scanStringAux ch (rest.length + 1)
            (⟨rest, stepPoint loc0 ch, loc0⟩ : LexerState) "" with ⟨res, s2⟩
        cases res with
        | ok text =>
          dsimp only
          exact finishToken_ne_panicked _ _ _
        | error e => simp
      rw [if_neg hstr]
      by_cases hslash : ch = '/'
      · rw [if_pos hslash]
        cases rest with
        | nil => simp
        | cons c2 rest2 =>
          dsimp only
          by_cases hcc : c2 = '/' ∨ c2 = '*'
          · rw [if_pos hcc]
            by_cases hc2 : c2 = '/'
            · rw [if_pos hc2]
              rcases hlc : lineCommentAux rest2 (stepPoint (stepPoint loc0 ch) c2)
                  (stepPoint loc0 ch) with ⟨found, s3⟩
              cases found with
              | true => exact ih s3
              | false => simp
            · rw [if_neg hc2]
              rcases hbc : blockCommentAux rest2 (stepPoint (stepPoint loc0 ch) c2)
                  (stepPoint loc0 ch) false with ⟨oe, s3⟩
              cases oe with
              | none => exact ih s3
              | some e => simp
          · rw [if_neg hcc]
            simp
      · rw [if_neg hslash]
        simp

/-- C2: string escape decoding: backslash n, r, t, 0 and doubled backslash
decode to the corresponding control or backslash character; a two-digit hex
escape decodes to the Unicode scalar value equal to the byte value 0-255
(Latin-1 style, not UTF-8 decoded), so the quoted text backslash x 4 1
decodes to the one-character string A and backslash x F F to U+00FF; the
four-digit and eight-digit Unicode escape forms decode the numeric value as
a Unicode scalar value, failing with an is-not-a-valid-character
SyntaxError when the value is not a valid scalar value. -/
theorem c2_escape_decoding :
    outcomeKind (nextTok (initState "\"\\n\"")).1 = some (TokenKind.String "\n") ∧
    outcomeKind (nextTok (initState "\"\\r\"")).1 = some (TokenKind.String "\r") ∧
    outcomeKind (nextTok (initState "\"\\t\"")).1 = some (TokenKind.String "\t") ∧
    outcomeKind (nextTok (initState "\"\\0\"")).1 = some (TokenKind.String "\x00") ∧
    outcomeKind (nextTok (initState "\"\\\\\"")).1 = some (TokenKind.String "\\") ∧
    outcomeKind (nextTok (initState "\"\\x41\"")).1 = some (TokenKind.String "A") ∧
    outcomeKind (nextTok (initState "\"\\xFF\"")).1
      = some (TokenKind.String (String.singleton (Char.ofNat 255))) ∧
    outcomeKind (nextTok (initState "\"\\u0041\"")).1 = some (TokenKind.String "A") ∧
    outcomeKind (nextTok (initState "\"\\U00000041\"")).1 = some (TokenKind.String "A") ∧
    outcomeErrMsg (nextTok (initState "\"\\uD800\"")).1
      = some "55296 is not a valid character" ∧
    outcomeErrMsg (nextTok (initState "\"\\U00110000\"")).1
      = some "1114112 is not a valid character" :=
  ⟨rfl, rfl, rfl, rfl, rfl, rfl, rfl, rfl, rfl, rfl, rfl⟩

/-- C3 counterexample: the claim says that when the characters consumed for
a fixed-width hex escape are not all hex digits the lexer returns an
is-invalid-hex SyntaxError, but the Rust unsigned from_str_radix also
accepts one leading plus sign: the six-character input consisting of a
quote, a backslash-x escape whose two consumed characters are plus and 1,
and a closing quote lexes successfully to a String token holding the one
character U+0001 — no error at all — refuting the claim as stated. -/
theorem c3_plus_sign_counterexample :
    (nextTok (initState "\"\\x+1\"")).1
      = LexOutcome.tok ⟨TokenKind.String (String.singleton (Char.ofNat 1)),
          ⟨⟨0, 0, 0⟩, ⟨5, 0, 5⟩⟩⟩ ∧
    outcomeErr (nextTok (initState "\"\\x+1\"")).1 = none :=
  ⟨rfl, rfl⟩

/-- C3 amended: for the x, u and U escapes the lexer consumes exactly 2, 4
and 8 further characters; if those consumed characters do not parse under
Rust's unsigned from_str_radix at radix 16 — all hex digits, optionally
preceded by a single leading plus sign — the error message says the
Debug-quoted text is invalid hex; running out of input before the fixed
width is read, or immediately after the backslash, gives the
unexpected-end-whilst-parsing-escape error; and a backslash followed by a
character other than n, r, t, 0, backslash, x, u, U reports that character
as not a valid escape. -/
theorem c3_escape_errors_amended :
    outcomeErr (nextTok (initState "\"\\xZZ\"")).1
      = some (errArea ⟨1, 0, 1⟩ ⟨4, 0, 4⟩ "\"ZZ\" is invalid hex") ∧
    outcomeKind (nextTok (initState "\"\\x411\"")).1 = some (TokenKind.String "A1") ∧
    outcomeKind (nextTok (initState "\"\\u00411\"")).1 = some (TokenKind.String "A1") ∧
    outcomeErr (nextTok (initState "\"\\x4")).1
      = some (errPoint ⟨3, 0, 3⟩ "unexpected end whilst parsing escape") ∧
    outcomeErr (nextTok (initState "\"\\u41\"")).1
      = some (errPoint ⟨5, 0, 5⟩ "unexpected end whilst parsing escape") ∧
    outcomeErr (nextTok (initState "\"\\")).1
      = some (errPoint ⟨1, 0, 1⟩ "unexpected end whilst parsing escape") ∧
    outcomeErr (nextTok (initState "\"\\q\"")).1
      = some (errArea ⟨1, 0, 1⟩ ⟨2, 0, 2⟩ "'q' is not a valid escape") ∧
    (∀ max hex, fromStrRadix16 max (String.mk ('+' :: hex)) = fromStrRadixCore max hex) :=
  ⟨rfl, rfl, rfl, rfl, rfl, rfl, rfl, fun _ _ => rfl⟩

/-- C4: the number scanner starts at a sign or digit and greedily consumes
the maximal run of digits, underscores, dots and exponent letters (stated
via takeWhile and dropWhile over the remaining input); the run is parsed by
the float parser with underscores not stripped, so an underscore makes the
parse fail; parse failure yields the invalid-number-literal SyntaxError
whose span covers the whole consumed run; successful parses include plain,
fractional and scientific notation. -/
theorem c4_number_scanner :
    (∀ src loc cur acc,
      (scanNumberAux src loc cur acc).1 = acc ++ String.mk (src.takeWhile isNumberCont) ∧
      (scanNumberAux src loc cur acc).2.src = src.dropWhile isNumberCont) ∧
    outcomeKind (nextTok (initState "123")).1 = some (TokenKind.Number 123) ∧
    outcomeKind (nextTok (initState "2.5e3")).1 = some (TokenKind.Number 2500) ∧
    outcomeKind (nextTok (initState "-3.5")).1 = some (TokenKind.Number (mkRat (-7) 2)) ∧
    outcomeErr (nextTok (initState "1_0")).1
      = some (errArea ⟨0, 0, 0⟩ ⟨2, 0, 2⟩ "invalid number literal") ∧
    outcomeErr (nextTok (initState "1..2")).1
      = some (errArea ⟨0, 0, 0⟩ ⟨3, 0, 3⟩ "invalid number literal") ∧
    outcomeErr (nextTok (initState "12e")).1
      = some (errArea ⟨0, 0, 0⟩ ⟨2, 0, 2⟩ "invalid number literal") :=
  ⟨scanNumberAux_out, rfl, rfl, rfl, rfl, rfl, rfl⟩

/-- C5: cursor location invariant of Lexer::eat: for every consumed
character the index increments by exactly one; consuming a newline
increments the line and resets the column to zero; consuming any other
character increments the column and leaves the line unchanged. -/
theorem c5_cursor_invariant (s : LexerState) (c : Char) (s' : LexerState)
    (h : eat s = some (c, s')) :
    s'.location.index = s.location.index + 1 ∧
    (c = '\n' → s'.location.line = s.location.line + 1 ∧ s'.location.column = 0) ∧
    (c ≠ '\n' → s'.location.column = s.location.column + 1 ∧
      s'.location.line = s.location.line) := by
  rcases hsrc : s.src with _ | ⟨c0, rest⟩
  · simp [eat, hsrc] at h
  · simp only [eat, hsrc, Option.some.injEq, Prod.mk.injEq] at h
    obtain ⟨hc, hs⟩ := h
    subst hc
    rw [← hs]
    dsimp only
    unfold stepPoint
    by_cases hnl : c0 = '\n'
    · rw [if_pos hnl]
      exact ⟨rfl, fun _ => ⟨rfl, rfl⟩, fun hn => absurd hnl hn⟩
    · rw [if_neg hnl]
      exact ⟨rfl, fun heq => absurd heq hnl, fun _ => ⟨rfl, rfl⟩⟩

/-- C5 witness: the invariant at a concrete consumption step. -/
theorem c5_cursor_invariant_witness :
    (⟨[], ⟨1, 0, 1⟩, ⟨0, 0, 0⟩⟩ : LexerState).location.index
      = (⟨['a'], ⟨0, 0, 0⟩, ⟨0, 0, 0⟩⟩ : LexerState).location.index + 1 ∧
    ('a' = '\n' → (⟨[], ⟨1, 0, 1⟩, ⟨0, 0, 0⟩⟩ : LexerState).location.line
        = (⟨['a'], ⟨0, 0, 0⟩, ⟨0, 0, 0⟩⟩ : LexerState).location.line + 1 ∧
      (⟨[], ⟨1, 0, 1⟩, ⟨0, 0, 0⟩⟩ : LexerState).location.column = 0) ∧
    ('a' ≠ '\n' → (⟨[], ⟨1, 0, 1⟩, ⟨0, 0, 0⟩⟩ : LexerState).location.column
        = (⟨['a'], ⟨0, 0, 0⟩, ⟨0, 0, 0⟩⟩ : LexerState).location.column + 1 ∧
      (⟨[], ⟨1, 0, 1⟩, ⟨0, 0, 0⟩⟩ : LexerState).location.line
        = (⟨['a'], ⟨0, 0, 0⟩, ⟨0, 0, 0⟩⟩ : LexerState).location.line) :=
  c5_cursor_invariant ⟨['a'], ⟨0, 0, 0⟩, ⟨0, 0, 0⟩⟩ 'a' ⟨[], ⟨1, 0, 1⟩, ⟨0, 0, 0⟩⟩ rfl

/-- C6: token spans are exact: for the input of two spaces followed by 42,
the produced Number token's span starts at index 2 and ends at index 3
(inclusive), recorded through the current-versus-running-location design,
and the following request signals end of input. -/
theorem c6_number_span :
    (nextTok (initState "  42")).1
      = LexOutcome.tok ⟨TokenKind.Number 42, ⟨⟨2, 0, 2⟩, ⟨3, 0, 3⟩⟩⟩ ∧
    (nextTok (nextTok (initState "  42")).2).1 = LexOutcome.eof :=
  ⟨rfl, rfl⟩

/-- C7: comments are fully transparent wherever whitespace is legal: a line
comment followed by 42 yields the single token Number 42 and then a clean
end of input; two consecutive block comments followed by 42 likewise; and
whitespace-only or comment-only input yields zero tokens and a clean
end-of-input signal with no error. -/
theorem c7_comment_transparency :
    outcomeKind (nextTok (initState "// line comment\n42")).1
      = some (TokenKind.Number 42) ∧
    (nextTok (nextTok (initState "// line comment\n42")).2).1 = LexOutcome.eof ∧
    outcomeKind (nextTok (initState "/* a */ /* b */ 42")).1
      = some (TokenKind.Number 42) ∧
    (nextTok (nextTok (initState "/* a */ /* b */ 42")).2).1 = LexOutcome.eof ∧
    (nextTok (initState "   \t\n ")).1 = LexOutcome.eof ∧
    (nextTok (initState "// comment only")).1 = LexOutcome.eof ∧
    (nextTok (initState "/* comment only */")).1 = LexOutcome.eof :=
  ⟨rfl, rfl, rfl, rfl, rfl, rfl, rfl⟩

/-- C8: every token request terminates and makes progress: an unterminated
string and an unterminated block comment yield the corresponding
SyntaxErrors rather than looping; the returned state never grows the
remaining input, and producing a token strictly consumes input, so repeated
requests on finite input terminate. -/
theorem c8_termination :
    outcomeErr (nextTok (initState "\"abc")).1
      = some (errPoint ⟨3, 0, 3⟩ "unterminated string") ∧
    outcomeErr (nextTok (initState "/* abc")).1
      = some (errPoint ⟨5, 0, 5⟩ "unterminated comment") ∧
    (∀ fuel s, (nextAux fuel s).2.src.length ≤ s.src.length) ∧
    (∀ fuel s t s', nextAux fuel s = (LexOutcome.tok t, s') →
      s'.src.length < s.src.length) :=
  ⟨rfl, rfl, fun fuel s => (nextAux_spec fuel s).2.1, nextAux_tok_lt⟩

/-- C8 witness: strict consumption at a concrete token request. -/
theorem c8_termination_witness :
    ((nextTok (initState "42")).2).src.length < (initState "42").src.length :=
  c8_termination.2.2.2 ((initState "42").src.length + 1) (initState "42")
    ⟨TokenKind.Number 42, ⟨⟨0, 0, 0⟩, ⟨1, 0, 1⟩⟩⟩ (nextTok (initState "42")).2 rfl

/-- C9: for every input whose tokenization completes without error, the
tokens are produced in strictly increasing start-index order, no two
tokens' inclusive spans overlap (each token ends strictly before the next
begins), and every token's span has its end index at or after its start
index. -/
theorem c9_span_ordering (input : String) (toks : List Token)
    (h : lex input = (toks, none)) :
    List.Pairwise (fun a b => a.location.start.index < b.location.start.index) toks ∧
    List.Pairwise (fun a b => a.location.stop.index < b.location.start.index) toks ∧
    ∀ t ∈ toks, t.location.start.index ≤ t.location.stop.index := by
  have hch := lexAux_chain (input.length + 1) (initState input) toks h
  obtain ⟨p1, p2, mem⟩ := spanChain_facts toks _ hch
  exact ⟨p1, p2, fun t ht => (mem t ht).2⟩

/-- C9 witness: the ordering properties at a concrete input. -/
theorem c9_span_ordering_witness :
    List.Pairwise (fun a b => a.location.start.index < b.location.start.index)
      (lex "foo.bar").1 ∧
    List.Pairwise (fun a b => a.location.stop.index < b.location.start.index)
      (lex "foo.bar").1 ∧
    ∀ t ∈ (lex "foo.bar").1, t.location.start.index ≤ t.location.stop.index :=
  c9_span_ordering "foo.bar" (lex "foo.bar").1 rfl

/-- C10: symbol construction safety.  The symbol scanner only ever grows an
accumulator that is already identifier-shaped (nonempty, leading ASCII
letter or underscore, containing only ASCII letters, digits and
underscores), so every string the lexer hands to the external symbol
constructor — reached only in the branch where the run is none of true,
false and nil — is identifier-shaped and non-reserved, and the panic
modelling the unwrap on the construction result is unreachable on every
input and fuel. -/
theorem c10_symbol_safety :
    (∀ src loc cur acc, validSymbolText acc = true →
      validSymbolText (scanSymbolAux src loc cur acc).1 = true) ∧
    (∀ fuel s, (nextAux fuel s).1 ≠ LexOutcome.panicked) :=
  ⟨scanSymbolAux_valid, nextAux_ne_panicked⟩

/-- C1 counterexample: the claim quotes the rejection message as expected
delimiter, but the source spells it expected delimeter: at the concrete
input 123abc the lexer rejects with the message expected delimeter, which
is not the claimed message text. -/
theorem c1_delimiter_message_counterexample :
    outcomeErrMsg (nextTok (initState "123abc")).1 = some "expected delimeter" ∧
    "expected delimeter" ≠ "expected delimiter" :=
  ⟨rfl, by decide⟩

/-- C1 amended: for every token produced that is not LeftParen, LeftBracket,
LeftBrace or Dot, the lexer peeks the next character without consuming it
and rejects — with the SyntaxError whose message is spelled expected
delimeter in the source — exactly when that character exists, is not ASCII
whitespace, and is not a closing paren, bracket or brace, unless the token
is a Symbol and the character is a dot; the validator never produces any
other error, and never fires for the four exempt kinds; in particular
123abc fails with the missing-delimiter error while 123 abc yields
Number 123 then Symbol abc. -/
theorem c1_delimiter_validation_amended :
    (∀ kind start s e, (finishToken kind start s).1 = LexOutcome.err e ↔
        checkDelimiter kind s = some e) ∧
    (∀ kind s, (kind ≠ TokenKind.LeftParen ∧ kind ≠ TokenKind.LeftBracket ∧
        kind ≠ TokenKind.LeftBrace ∧ kind ≠ TokenKind.Dot) →
      (checkDelimiter kind s = some (errPoint s.location "expected delimeter") ↔
        ∃ c, s.src.head? = some c ∧ rustIsAsciiWhitespace c = false ∧
          ¬(c = ')' ∨ c = ']' ∨ c = '}') ∧
          ¬((∃ sym, kind = TokenKind.Symbol sym) ∧ c = '.')) ∧
      (checkDelimiter kind s = none ∨
        checkDelimiter kind s = some (errPoint s.location "expected delimeter"))) ∧
    (∀ kind s, (kind = TokenKind.LeftParen ∨ kind = TokenKind.LeftBracket ∨
        kind = TokenKind.LeftBrace ∨ kind = TokenKind.Dot) →
      checkDelimiter kind s = none) ∧
    outcomeErr (nextTok (initState "123abc")).1
      = some (errPoint ⟨3, 0, 3⟩ "expected delimeter") ∧
    outcomeKind (nextTok (initState "123 abc")).1 = some (TokenKind.Number 123) ∧
    outcomeKind (nextTok (nextTok (initState "123 abc")).2).1
      = some (TokenKind.Symbol ⟨"abc"⟩) := by
  refine ⟨?_, ?_, ?_, rfl, rfl, rfl⟩
  · intro kind start s e
    unfold finishToken
    cases hcd : checkDelimiter kind s <;> simp [hcd]
  · intro kind s h
    cases hh : s.src.head? with
    | none =>
      have hcd : checkDelimiter kind s = none := by
        unfold checkDelimiter
        rw [if_pos h, hh]
      rw [hcd]
      refine ⟨⟨fun hc => Option.noConfusion hc, ?_⟩, Or.inl rfl⟩
      rintro ⟨c1, hc1, _⟩
      exact Option.noConfusion hc1
    | some c =>
      cases hex : symbolExempt kind c with
      | true =>
        have hp := (symbolExempt_iff kind c).mp hex
        have hcd : checkDelimiter kind s = none := by
          unfold checkDelimiter
          rw [if_pos h, hh]
          simp [hex]
        rw [hcd]
        refine ⟨⟨fun hc => Option.noConfusion hc, ?_⟩, Or.inl rfl⟩
        rintro ⟨c1, hc1, _, _, hnp1⟩
        cases hc1
        exact absurd hp hnp1
      | false =>
        have hnp : ¬((∃ sym, kind = TokenKind.Symbol sym) ∧ c = '.') := by
          intro hp
          rw [(symbolExempt_iff kind c).mpr hp] at hex
          exact Bool.noConfusion hex
        cases hws : rustIsAsciiWhitespace c with
        | true =>
          have hcd : checkDelimiter kind s = none := by
            unfold checkDelimiter
            rw [if_pos h, hh]
            simp [hex, hws]
          rw [hcd]
          refine ⟨⟨fun hc => Option.noConfusion hc, ?_⟩, Or.inl rfl⟩
          rintro ⟨c1, hc1, hws1, _⟩
          cases hc1
          rw [hws] at hws1
          exact Bool.noConfusion hws1
        | false =>
          by_cases hclo : c = ')' ∨ c = ']' ∨ c = '}'
          · have hcd : checkDelimiter kind s = none := by
              unfold checkDelimiter
              rw [if_pos h, hh]
              simp [hex, hws, if_pos hclo]
            rw [hcd]
            refine ⟨⟨fun hc => Option.noConfusion hc, ?_⟩, Or.inl rfl⟩
            rintro ⟨c1, hc1, _, hnclo, _⟩
            cases hc1
            exact absurd hclo hnclo
          · have hcd : checkDelimiter kind s
                = some (errPoint s.location "expected delimeter") := by
              unfold checkDelimiter
              rw [if_pos h, hh]
              simp [hex, hws, if_neg hclo]
            rw [hcd]
            exact ⟨⟨fun _ => ⟨c, rfl, hws, hclo, hnp⟩, fun _ => rfl⟩, Or.inr rfl⟩
  · intro kind s h
    rcases h with rfl | rfl | rfl | rfl <;> simp [checkDelimiter]

/-- C1 witness: the validator characterization at concrete inputs. -/
theorem c1_delimiter_validation_witness :
    (checkDelimiter TokenKind.Nil ⟨['x'], ⟨1, 0, 1⟩, ⟨0, 0, 0⟩⟩ = none ∨
      checkDelimiter TokenKind.Nil ⟨['x'], ⟨1, 0, 1⟩, ⟨0, 0, 0⟩⟩
        = some (errPoint (⟨['x'], ⟨1, 0, 1⟩, ⟨0, 0, 0⟩⟩ : LexerState).location
            "expected delimeter")) ∧
    checkDelimiter TokenKind.Dot ⟨['x'], ⟨1, 0, 1⟩, ⟨0, 0, 0⟩⟩ = none :=
  ⟨(c1_delimiter_validation_amended.2.1 TokenKind.Nil ⟨['x'], ⟨1, 0, 1⟩, ⟨0, 0, 0⟩⟩
      (by exact ⟨by decide, by decide, by decide, by decide⟩)).2,
    c1_delimiter_validation_amended.2.2.1 TokenKind.Dot ⟨['x'], ⟨1, 0, 1⟩, ⟨0, 0, 0⟩⟩
      (Or.inr (Or.inr (Or.inr rfl)))⟩

/-- C10 witness: shape preservation at a concrete scanner call. -/
theorem c10_symbol_safety_witness :
    validSymbolText (scanSymbolAux ['c'] ⟨0, 0, 0⟩ ⟨0, 0, 0⟩ "ab").1 = true :=
  c10_symbol_safety.1 ['c'] ⟨0, 0, 0⟩ ⟨0, 0, 0⟩ "ab" rfl

end Facsimile
